import Mathlib

/-!
Verification of the markdown-to-slide-markup pipeline of `tool-slide-bridge`
(`src/tool_slide_bridge/marp_converter.py`), shallowly embedded over
`List Char`.  Python strings are modelled as `List Char`; the regular
expressions used by the source are fixed patterns and are embedded as the
explicit scanners they denote.  Non-ASCII whitespace is not modelled: the
source only ever meets it through Python's `\s` and `str.strip`, and no
property below depends on non-ASCII input.
-/

set_option maxRecDepth 20000

/-! ## Definitions: the embedded program -/

/-- Strings are modelled as lists of characters. -/
abbrev S : Type := List Char

/-- Coerce a Lean string literal to the model type. -/
def chars (s : String) : S := s.data

/-- ASCII whitespace, the set matched by Python's `\s` and stripped by
`str.strip()` for ASCII input: space, tab, newline, CR, vertical tab,
form feed. -/
def wsChar (c : Char) : Bool :=
  c = ' ' || c = '\t' || c = '\n' || c = '\r' || c = '\x0b' || c = '\x0c'

/-- Python `str.lstrip()` (ASCII). -/
def lstripWS (s : S) : S := s.dropWhile wsChar

/-- Python `str.rstrip()` (ASCII). -/
def rstripWS (s : S) : S := (s.reverse.dropWhile wsChar).reverse

/-- Python `str.strip()` (ASCII). -/
def pyStrip (s : S) : S := rstripWS (lstripWS s)

/-- Python `str.lstrip(cs)` for an explicit character set. -/
def lstripC (cs : List Char) (s : S) : S := s.dropWhile (fun c => cs.contains c)

/-- Python `str.rstrip(cs)` for an explicit character set. -/
def rstripC (cs : List Char) (s : S) : S :=
  (s.reverse.dropWhile (fun c => cs.contains c)).reverse

/-- Python `str.strip(cs)` for an explicit character set. -/
def stripC (cs : List Char) (s : S) : S := rstripC cs (lstripC cs s)

/-- Python `str.split("\n")`: split at every newline, keeping empty pieces;
the empty string splits to one empty piece. -/
def splitLines : S → List S
  | [] => [[]]
  | c :: r =>
    if c = '\n' then [] :: splitLines r
    else
      match splitLines r with
      | h :: t => (c :: h) :: t
      | [] => [[c]]

/-- Python `"\n".join(lines)`. -/
def joinLines : List S → S
  | [] => []
  | l :: ls =>
    match ls with
    | [] => l
    | _ :: _ => l ++ '\n' :: joinLines ls

/-- `p` is a literal prefix of `s` (Python `str.startswith`). -/
def isPre : S → S → Bool
  | [], _ => true
  | _ :: _, [] => false
  | p :: ps, c :: cs => (p = c) && isPre ps cs

/-- `p` occurs as a contiguous substring of `s` (Python `p in s`). -/
def isSub (p : S) : S → Bool
  | [] => isPre p []
  | c :: cs => isPre p (c :: cs) || isSub p cs

/-- First occurrence of `pat` in `s`: returns the part before the
occurrence and the part after it. -/
def findOcc (pat : S) : S → Option (S × S)
  | [] => if isPre pat [] then some ([], []) else none
  | c :: cs =>
    if isPre pat (c :: cs) then some ([], (c :: cs).drop pat.length)
    else (findOcc pat cs).map (fun p => (c :: p.1, p.2))

/-- One generic left-to-right, non-overlapping rewriting scan, the shape of
Python `re.sub` for the fixed patterns the source uses.  `m s` returns
`some (replacement, rest)` when a match begins at the head of `s`; the scan
then continues on `rest` (the text after the match), exactly as `re.sub`
resumes scanning after a match.  Fuel is the length of the scanned string,
which one-char steps and non-empty matches can never exhaust. -/
def rescan (m : S → Option (S × S)) : Nat → S → S
  | _, [] => []
  | 0, s => s
  | n + 1, c :: cs =>
    match m (c :: cs) with
    | some (rep, rest) => rep ++ rescan m n rest
    | none => c :: rescan m n cs

/-- Scan to the first `>` and return the remainder after it. -/
def afterGt : S → Option S
  | [] => none
  | c :: t => if c = '>' then some t else afterGt t

/-- Matcher for the source's `re.sub(r"<hr[^>]*/?>", "\n---\n", content,
flags=re.IGNORECASE)`: `<hr` (case-insensitive on the letters) followed by
everything up to and including the first `>`; the greedy `[^>]*` together
with `/?>` always ends the match at that first `>`. -/
def matchHr : S → Option (S × S)
  | c1 :: c2 :: c3 :: rest =>
    if c1 = '<' && c2.toLower = 'h' && c3.toLower = 'r' then
      (afterGt rest).map (fun a => (chars "\n---\n", a))
    else none
  | _ => none

/-- Matcher for the source's `re.sub(r"\n---\n---\n", "\n---\n", content)`. -/
def matchBreak2 (s : S) : Option (S × S) :=
  if isPre (chars "\n---\n---\n") s then some (chars "\n---\n", s.drop 9) else none

/-- `re.sub(r"<hr[^>]*/?>", "\n---\n", content, flags=re.IGNORECASE)`. -/
def replaceHr (s : S) : S := rescan matchHr s.length s

/-- `re.sub(r"\n---\n---\n", "\n---\n", content)`. -/
def collapseBreaks (s : S) : S := rescan matchBreak2 s.length s

/-- `re.sub(r"^---\n", "", content)`: without `re.MULTILINE` the anchor `^`
only matches at position 0, so at most the leading `---\n` is removed. -/
def stripLeadingBreak (s : S) : S :=
  if isPre (chars "---\n") s then s.drop 4 else s

/-- The canonical slide-break marker line. -/
def brkLine : S := chars "---"

/-- `re.match(r"^#{1,2}\s", line)`: one or two `#` followed by a whitespace
character. -/
def isHeading : S → Bool
  | '#' :: '#' :: c :: _ => wsChar c
  | '#' :: c :: _ => wsChar c
  | _ => false

/-- The backward scan of `_structure_slides`: from index `i`, the nearest
previous line of `all` whose `strip()` is non-empty
(`while prev_line_idx >= 0 and not lines[prev_line_idx].strip()`). -/
def prevNB (all : List S) : Nat → Option S
  | 0 => none
  | i + 1 =>
    let l := all.getD i []
    if pyStrip l = [] then prevNB all i else some l

/-- `prev_line_idx >= 0 and lines[prev_line_idx].strip() != "---"`. -/
def prevOk (all : List S) (i : Nat) : Bool :=
  match prevNB all i with
  | none => false
  | some p => pyStrip p ≠ brkLine

/-- The loop body of `_structure_slides`: before each heading line whose
nearest previous non-blank line (in the original `lines` list) is not
`---`, insert a `---` line. -/
def ihbAux (all : List S) : Nat → List S → List S
  | _, [] => []
  | i, l :: rest =>
    if isHeading l && prevOk all i then brkLine :: l :: ihbAux all (i + 1) rest
    else l :: ihbAux all (i + 1) rest

/-- The heading-break insertion pass of `_structure_slides`. -/
def insertHeadingBreaks (lines : List S) : List S := ihbAux lines 0 lines

/-- `_structure_slides`: hr replacement, heading-break insertion,
double-break collapse, leading-break strip. -/
def structureSlides (content : S) : S :=
  stripLeadingBreak
    (collapseBreaks (joinLines (insertHeadingBreaks (splitLines (replaceHr content)))))

/-- `MarpConfig` (pydantic model); color strings are unvalidated. -/
structure MarpConfig where
  theme : S
  paginate : Bool
  backgroundColor : S
  color : S
  enableHtml : Bool
  pdfOutlines : Bool

/-- The pydantic defaults of `MarpConfig`. -/
def defaultConfig : MarpConfig :=
  { theme := chars "corporate", paginate := true,
    backgroundColor := chars "#ffffff", color := chars "#2c3e50",
    enableHtml := true, pdfOutlines := true }

/-- `str(config.paginate).lower()`. -/
def boolStr : Bool → S
  | true => chars "true"
  | false => chars "false"

/-- The directive list built by `_add_marp_directives`.  `themeExists`
models `(self.theme_dir / f"{config.theme}.css").exists()`.  The source's
final `[d for d in directives if d]` filter is kept. -/
def directivesFor (cfg : MarpConfig) (themeExists : Bool) : List S :=
  ([chars "marp: true",
    (if themeExists then chars "theme: " ++ cfg.theme else chars "theme: default"),
    chars "paginate: " ++ boolStr cfg.paginate,
    chars "backgroundColor: " ++ cfg.backgroundColor,
    chars "color: " ++ cfg.color]
    ++ (if cfg.enableHtml then [chars "html: true"] else [])
    ++ (if cfg.pdfOutlines then [chars "pdf.outlines: true"] else [])).filter
    (fun d => d ≠ [])

/-- `_add_marp_directives`: `"---\n" + "\n".join(directives) + "\n---\n\n"`
prepended to the content. -/
def addMarpDirectives (cfg : MarpConfig) (themeExists : Bool) (content : S) : S :=
  chars "---\n" ++ joinLines (directivesFor cfg themeExists) ++ chars "\n---\n\n" ++ content

/-- `content.split("---")` (split on every occurrence of the substring,
keeping empty pieces), with fuel `length + 1`; every split step consumes at
least the three separator characters, so the fuel is never exhausted. -/
def splitGo : Nat → S → List S
  | 0, s => [s]
  | n + 1, s =>
    match findOcc brkLine s with
    | none => [s]
    | some (b, a) => b :: splitGo n a

/-- `content.split("---")`. -/
def splitOnBreaks (s : S) : List S := splitGo (s.length + 1) s

/-- `re.search(r"^#\s", slide, re.MULTILINE)` restricted to the head of the
string: `#` then a whitespace character. -/
def titleAt : S → Bool
  | '#' :: c :: _ => wsChar c
  | _ => false

/-- The `re.MULTILINE` part of the same search: a match just after some
newline. -/
def titleScan : S → Bool
  | [] => false
  | c :: t => (c = '\n' && titleAt t) || titleScan t

/-- `re.search(r"^#\s", slide, re.MULTILINE)` as a Boolean. -/
def titleSearch (s : S) : Bool := titleAt s || titleScan s

/-- `re.search(r"```", slide)` as a Boolean. -/
def hasTicks (s : S) : Bool := isSub (chars "```") s

/-- The three style annotations of `_apply_styling`. -/
def leadC : S := chars "<!-- _class: lead -->\n\n"

/-- Style annotation for code slides. -/
def codeC : S := chars "<!-- _class: code -->\n\n"

/-- Style annotation for content-heavy slides. -/
def denseC : S := chars "<!-- _class: dense -->\n\n"

/-- The per-slide styling step of `_apply_styling`, applied to the already
stripped slide text: title slide, then code slide, then content-heavy
slide, in that order. -/
def styleSlide (t : S) : S :=
  if titleSearch t then leadC ++ t
  else if hasTicks t then codeC ++ t
  else if 10 < t.count '\n' then denseC ++ t
  else t

/-- The slide loop of `_apply_styling`: strip each piece, drop empty
pieces, pass the first piece through untouched when it starts with
`marp:`, and style every other piece. -/
def styledParts : Nat → List S → List S
  | _, [] => []
  | i, sl :: rest =>
    let t := pyStrip sl
    if t = [] then styledParts (i + 1) rest
    else if i = 0 && isPre (chars "marp:") t then t :: styledParts (i + 1) rest
    else styleSlide t :: styledParts (i + 1) rest

/-- The separator of `"\n\n---\n\n".join(styled_slides)`. -/
def sepBreak : S := chars "\n\n---\n\n"

/-- `"\n\n---\n\n".join(styled_slides)`. -/
def joinSep : List S → S
  | [] => []
  | l :: ls =>
    match ls with
    | [] => l
    | _ :: _ => l ++ sepBreak ++ joinSep ls

/-- `_apply_styling`. -/
def applyStyling (content : S) : S := joinSep (styledParts 0 (splitOnBreaks content))

/-- `process_claude_content` after its `None` check: directives, slide
structure, styling. -/
def processClaudeContent (cfg : MarpConfig) (themeExists : Bool) (content : S) : S :=
  applyStyling (structureSlides (addMarpDirectives cfg themeExists content))

/-- `process_claude_content` including the `None` check, which raises
`ValueError("Content cannot be None")`. -/
def processContentChecked (cfg : MarpConfig) (themeExists : Bool) :
    Option S → Except S S
  | none => .error (chars "Content cannot be None")
  | some c => .ok (processClaudeContent cfg themeExists c)

/-- `os.path.basename` (POSIX): everything after the last `/`. -/
def basename (s : S) : S := (s.reverse.takeWhile (fun c => c ≠ '/')).reverse

/-- `filename.replace("..", "")`: remove every occurrence of `..`,
left-to-right, non-overlapping. -/
def replaceDots (s : S) : S :=
  rescan (fun t => if isPre (chars "..") t then some ([], t.drop 2) else none)
    s.length s

/-- The source's `invalid_chars = '<>:"|?*\\/\x00'`. -/
def invalidChars : List Char :=
  ['<', '>', ':', '"', '|', '?', '*', '\\', '/', '\x00']

/-- `_sanitize_filename`: basename, `..` removal, invalid-character
removal, strip of dots and spaces, fallback to `presentation`. -/
def sanitizeFilename (filename : S) : S :=
  let f1 := basename filename
  let f2 := replaceDots f1
  let f3 := invalidChars.foldl (fun acc c => acc.filter (fun x => x ≠ c)) f2
  let f4 := stripC (chars ". ") f3
  if f4 = [] then chars "presentation" else f4

/-- `ConversionResult` (pydantic model). -/
structure ConversionResult where
  success : Bool
  outputPath : Option S
  errorMessage : Option S
  markdownPath : Option S
deriving DecidableEq

/-- How the external process is invoked: as an argument vector
(`subprocess.run(list, ...)`, shell interpretation disabled) or as a shell
command string.  The source only ever produces the first form. -/
inductive Invocation where
  | argv (args : List S)
  | shell (cmd : S)
deriving DecidableEq

/-- Outcome of the external `marp` run, a parameter of the model:
success, or `subprocess.CalledProcessError` with captured `stderr`,
`stdout` and the exception's own string form. -/
inductive MarpRun where
  | ok
  | err (stderr stdout excStr : S)

/-- What `generate_presentation` did: its returned `ConversionResult`, the
files it wrote (path and content), and the external invocation it issued,
if any. -/
structure GenOutcome where
  result : ConversionResult
  writes : List (S × S)
  invocation : Option Invocation

/-- `valid_formats = ["pptx", "pdf", "html"]`. -/
def validFormats : List S := [chars "pptx", chars "pdf", chars "html"]

/-- The format-specific flag block of the `marp` command line. -/
def fmtFlags (fmt : S) : List S :=
  if fmt = chars "pptx" then [chars "--pptx"]
  else if fmt = chars "pdf" then [chars "--pdf"]
  else if fmt = chars "html" then [chars "--html"]
  else []

/-- Python `x or y` on strings: first non-empty. -/
def orElse (a b : S) : S := if a = [] then b else a

/-- `generate_presentation`.  `content` is `Option S` to model a possibly
absent (`None`) document; `themeExists` models the theme-css existence
probe of `_add_marp_directives`; `hasCustomCss` models
`any(self.theme_dir.glob("*.css"))`; `marp` is the outcome of the external
`subprocess.run(cmd, ..., check=True)` call.  Branch order mirrors the
source: sanitize, format validation, content processing (where a `None`
document raises and is caught by the generic handler), markdown write,
command construction, external run, error wrapping. -/
def generatePresentation (outputDir themeDir : S) (themeExists hasCustomCss : Bool)
    (content : Option S) (filename : S) (outputFormat : S) (cfg : MarpConfig)
    (marp : MarpRun) : GenOutcome :=
  let fname := sanitizeFilename filename
  if outputFormat ∈ validFormats then
    match content with
    | none =>
      { result := { success := false, outputPath := none,
                    errorMessage := some (chars "Unexpected error: Content cannot be None"),
                    markdownPath := none },
        writes := [], invocation := none }
    | some c =>
      let marpContent := processClaudeContent cfg themeExists c
      let mdFile := outputDir ++ chars "/" ++ fname ++ chars ".md"
      let outFile := outputDir ++ chars "/" ++ fname ++ chars "." ++ outputFormat
      let cmd := [chars "marp", mdFile] ++ fmtFlags outputFormat
        ++ [chars "--output", outFile]
        ++ (if hasCustomCss then [chars "--theme-set", themeDir] else [])
      match marp with
      | .ok =>
        { result := { success := true, outputPath := some outFile,
                      errorMessage := none, markdownPath := some mdFile },
          writes := [(mdFile, marpContent)], invocation := some (.argv cmd) }
      | .err stderr stdout excStr =>
        { result := { success := false, outputPath := none,
                      errorMessage := some (chars "MARP conversion failed: "
                        ++ orElse stderr (orElse stdout excStr)),
                      markdownPath := some mdFile },
          writes := [(mdFile, marpContent)], invocation := some (.argv cmd) }
  else
    { result := { success := false, outputPath := none,
                  errorMessage := some (chars "Invalid output format: " ++ outputFormat
                    ++ chars ". Must be one of ['pptx', 'pdf', 'html']"),
                  markdownPath := none },
      writes := [], invocation := none }

/-- The style tags of the spec's data model (§3): `{lead, code, dense,
none}`; `plain` stands for the spec's `none`. -/
inductive SlideClass where
  | lead
  | code
  | dense
  | plain
deriving DecidableEq

/-- Modelled from the spec's words: the ordered decision table
(title ⇒ lead; fenced code ⇒ code; more than 10 line breaks ⇒ dense;
else none), first match wins. -/
def classOf (t : S) : SlideClass :=
  if titleSearch t then .lead
  else if hasTicks t then .code
  else if 10 < t.count '\n' then .dense
  else .plain

/-- The annotation each tag contributes to the slide text. -/
def classComment : SlideClass → S
  | .lead => leadC
  | .code => codeC
  | .dense => denseC
  | .plain => []

/-- Modelled from the claim's wording: the state of a forward scan — the
nearest preceding non-blank line, if any. -/
def scanState (prev : Option S) (ls : List S) : Option S :=
  ls.foldl (fun acc l => if pyStrip l = [] then acc else some l) prev

/-- The nearest preceding non-blank line of a processed prefix. -/
def lastNB (ls : List S) : Option S := scanState none ls

/-- Whether a break is inserted given the nearest preceding non-blank
line: only when one exists and it is not already the canonical marker. -/
def prevAllows : Option S → Bool
  | none => false
  | some p => pyStrip p ≠ brkLine

/-- Modelled from the claim's wording (spec §4.2 step 2): scan forward;
before every heading line whose nearest preceding non-blank line exists
and is not the canonical break marker, insert one marker. -/
def specScan (prev : Option S) : List S → List S
  | [] => []
  | l :: rest =>
    if isHeading l && prevAllows prev then
      brkLine :: l :: specScan (if pyStrip l = [] then prev else some l) rest
    else l :: specScan (if pyStrip l = [] then prev else some l) rest

/-- No two adjacent elements of the line list are both the canonical break
marker. -/
def chainNoBB : List S → Bool
  | a :: b :: t => (!(a = brkLine && b = brkLine)) && chainNoBB (b :: t)
  | _ => true

/-! ## Theorems -/

theorem isPre_self_cat (p x : S) : isPre p (p ++ x) = true := by
  induction p with
  | nil => rfl
  | cons c ps ih => simp [isPre, ih]

theorem isPre_drop {p s : S} (h : isPre p s = true) : s = p ++ s.drop p.length := by
  induction p generalizing s with
  | nil => simp
  | cons c ps ih =>
    cases s with
    | nil => simp [isPre] at h
    | cons d ds =>
      simp only [isPre, Bool.and_eq_true, decide_eq_true_eq] at h
      obtain ⟨rfl, h2⟩ := h
      simpa using ih h2

theorem isPre_cat_of_isPre {p a : S} (x : S) (h : isPre p a = true) :
    isPre p (a ++ x) = true := by
  induction p generalizing a with
  | nil => rfl
  | cons c ps ih =>
    cases a with
    | nil => simp [isPre] at h
    | cons d ds =>
      simp only [isPre, Bool.and_eq_true] at h ⊢
      exact ⟨h.1, ih h.2⟩

theorem isSub_of_isPre {p s : S} (h : isPre p s = true) : isSub p s = true := by
  cases s with
  | nil => exact h
  | cons c cs => simp [isSub, h]

theorem isSub_cons_of {p t : S} (c : Char) (h : isSub p t = true) :
    isSub p (c :: t) = true := by
  simp [isSub, h]

theorem isSub_cat_left {p b : S} (a : S) (h : isSub p b = true) :
    isSub p (a ++ b) = true := by
  induction a with
  | nil => simpa using h
  | cons c cs ih => exact isSub_cons_of c ih

theorem isSub_of_decomp (p x y : S) : isSub p (x ++ p ++ y) = true := by
  rw [List.append_assoc]
  exact isSub_cat_left x (isSub_of_isPre (isPre_self_cat p y))

theorem splitLines_cons_nl (r : S) : splitLines ('\n' :: r) = [] :: splitLines r := by
  simp [splitLines]

theorem splitLines_cons_of_ne {c : Char} (r : S) (hc : c ≠ '\n') {h0 : S} {t0 : List S}
    (h' : splitLines r = h0 :: t0) : splitLines (c :: r) = (c :: h0) :: t0 := by
  simp only [splitLines, if_neg hc, h']

theorem splitLines_ne_nil (s : S) : splitLines s ≠ [] := by
  cases s with
  | nil => simp [splitLines]
  | cons c r =>
    simp only [splitLines]
    split
    · simp
    · split <;> simp

theorem splitLines_cat_nl (a b : S) :
    splitLines (a ++ '\n' :: b) = splitLines a ++ splitLines b := by
  induction a with
  | nil => simp [splitLines]
  | cons c a' ih =>
    by_cases hc : c = '\n'
    · subst hc
      simp only [List.cons_append, splitLines_cons_nl, ih]
    · cases h' : splitLines a' with
      | nil => exact absurd h' (splitLines_ne_nil a')
      | cons h t =>
        have h2 : splitLines (a' ++ '\n' :: b) = h :: (t ++ splitLines b) := by
          rw [ih, h']
          rfl
        rw [List.cons_append, splitLines_cons_of_ne _ hc h2,
          splitLines_cons_of_ne _ hc h']
        rfl

theorem joinLines_splitLines (s : S) : joinLines (splitLines s) = s := by
  induction s with
  | nil => rfl
  | cons c r ih =>
    by_cases hc : c = '\n'
    · subst hc
      rw [splitLines_cons_nl]
      cases h' : splitLines r with
      | nil => exact absurd h' (splitLines_ne_nil r)
      | cons h t =>
        rw [h'] at ih
        show '\n' :: joinLines (h :: t) = '\n' :: r
        rw [ih]
    · cases h' : splitLines r with
      | nil => exact absurd h' (splitLines_ne_nil r)
      | cons h t =>
        rw [splitLines_cons_of_ne _ hc h']
        rw [h'] at ih
        cases t with
        | nil =>
          show c :: h = c :: r
          simpa [joinLines] using ih
        | cons t0 ts =>
          show (c :: h) ++ '\n' :: joinLines (t0 :: ts) = c :: r
          rw [← ih]
          rfl

theorem isPre_cons_self {p s : S} (c : Char) (h : isPre p s = true) :
    isPre (c :: p) (c :: s) = true := by
  simp [isPre, h]

theorem splitLines_head_isPre (s : S) :
    ∀ h t, splitLines s = h :: t → isPre h s = true := by
  induction s with
  | nil =>
    intro h t he
    obtain ⟨h1, -⟩ : ([] : S) = h ∧ ([] : List S) = t := by
      simpa [splitLines] using he
    rw [← h1]
    rfl
  | cons c r ih =>
    intro h t he
    by_cases hc : c = '\n'
    · subst hc
      rw [splitLines_cons_nl] at he
      obtain ⟨h1, -⟩ := List.cons.injEq .. ▸ he
      rw [← h1]
      rfl
    · cases h' : splitLines r with
      | nil => exact absurd h' (splitLines_ne_nil r)
      | cons h0 t0 =>
        rw [splitLines_cons_of_ne _ hc h'] at he
        obtain ⟨h1, -⟩ := List.cons.injEq .. ▸ he
        rw [← h1]
        exact isPre_cons_self c (ih h0 t0 h')

theorem mem_splitLines_isSub {l : S} {s : S} (h : l ∈ splitLines s) :
    isSub l s = true := by
  induction s with
  | nil =>
    simp only [splitLines, List.mem_singleton] at h
    subst h
    rfl
  | cons c r ih =>
    by_cases hc : c = '\n'
    · subst hc
      rw [splitLines_cons_nl] at h
      rcases List.mem_cons.mp h with rfl | h
      · rfl
      · exact isSub_cons_of _ (ih h)
    · cases h' : splitLines r with
      | nil => exact absurd h' (splitLines_ne_nil r)
      | cons h0 t0 =>
        rw [splitLines_cons_of_ne _ hc h'] at h
        rcases List.mem_cons.mp h with rfl | h
        · exact isSub_of_isPre (isPre_cons_self c (splitLines_head_isPre r h0 t0 h'))
        · exact isSub_cons_of _ (ih (h' ▸ List.mem_cons_of_mem h0 h))

theorem rescan_zero (m : S → Option (S × S)) (s : S) : rescan m 0 s = s := by
  cases s <;> rfl

theorem rescan_id (m : S → Option (S × S)) :
    ∀ (n : Nat) (s : S), (∀ a b : S, s = a ++ b → m b = none) → rescan m n s = s := by
  intro n
  induction n with
  | zero => intro s _; exact rescan_zero m s
  | succ n ih =>
    intro s h
    cases s with
    | nil => rfl
    | cons c cs =>
      have h0 : m (c :: cs) = none := h [] (c :: cs) rfl
      show (match m (c :: cs) with
        | some (rep, rest) => rep ++ rescan m n rest
        | none => c :: rescan m n cs) = c :: cs
      rw [h0]
      exact congrArg (c :: ·) (ih cs (fun a b hab => h (c :: a) b (by rw [hab]; rfl)))

theorem rescan_skip_cat (m : S → Option (S × S)) (a : S)
    (h : ∀ k, k < a.length → ∀ b : S, m (a.drop k ++ b) = none) :
    ∀ (n : Nat) (b : S), rescan m (a.length + n) (a ++ b) = a ++ rescan m n b := by
  induction a with
  | nil => intro n b; simp
  | cons c a' ih =>
    intro n b
    have hc : m (c :: (a' ++ b)) = none := h 0 (by simp) b
    have hlen : (c :: a').length + n = (a'.length + n) + 1 := by
      simp [Nat.succ_add]
    rw [hlen]
    show (match m (c :: (a' ++ b)) with
      | some (rep, rest) => rep ++ rescan m (a'.length + n) rest
      | none => c :: rescan m (a'.length + n) (a' ++ b)) = c :: (a' ++ rescan m n b)
    rw [hc]
    exact congrArg (c :: ·)
      (ih (fun k hk b' => h (k + 1) (by simpa using Nat.succ_lt_succ hk) b') n b)

theorem matchHr_none_head {c : Char} (hc : c ≠ '<') : ∀ t : S, matchHr (c :: t) = none := by
  intro t
  match t with
  | [] => rfl
  | [_] => rfl
  | x :: y :: r => simp [matchHr, hc]

theorem directivesFor_shape (cfg : MarpConfig) (te : Bool) :
    ∃ d rest, directivesFor cfg te = chars "marp: true" :: d :: rest := by
  cases te <;> simp [directivesFor, List.filter, chars]

theorem addMarp_shape (cfg : MarpConfig) (te : Bool) (content : S) :
    ∃ R, addMarpDirectives cfg te content = chars "---\nmarp: true\n" ++ R := by
  obtain ⟨d, rest, hd⟩ := directivesFor_shape cfg te
  refine ⟨joinLines (d :: rest) ++ chars "\n---\n\n" ++ content, ?_⟩
  unfold addMarpDirectives
  rw [hd]
  rfl

theorem splitLines_p15 (B : S) :
    splitLines (chars "---\nmarp: true\n" ++ B) =
      chars "---" :: chars "marp: true" :: splitLines B := by
  have h1 : chars "---\nmarp: true\n" ++ B =
      chars "---" ++ '\n' :: (chars "marp: true" ++ '\n' :: B) := rfl
  rw [h1, splitLines_cat_nl, splitLines_cat_nl]
  rfl

theorem ihbAux_two (all : List S) (T : List S) :
    ihbAux all 0 (chars "---" :: chars "marp: true" :: T) =
      chars "---" :: chars "marp: true" :: ihbAux all 2 T := by
  simp [ihbAux, show isHeading (chars "---") = false from rfl,
    show isHeading (chars "marp: true") = false from rfl]

theorem ihbAux_ne_nil (all : List S) (i : Nat) (l : S) (rest : List S) :
    ihbAux all i (l :: rest) ≠ [] := by
  unfold ihbAux
  split <;> simp

theorem joinLines_two (z : S) (zs : List S) :
    joinLines (chars "---" :: chars "marp: true" :: z :: zs) =
      chars "---\nmarp: true\n" ++ joinLines (z :: zs) := rfl

theorem stripLeadingBreak_p14 (K : S) :
    stripLeadingBreak (chars "---\nmarp: true" ++ K) = chars "marp: true" ++ K := rfl

theorem structureSlides_marp (cfg : MarpConfig) (te : Bool) (content : S) :
    ∃ K, structureSlides (addMarpDirectives cfg te content) =
      chars "marp: true" ++ K := by
  obtain ⟨R, hR⟩ := addMarp_shape cfg te content
  have hHr : ∀ k, k < (chars "---\nmarp: true\n").length →
      ∀ b : S, matchHr ((chars "---\nmarp: true\n").drop k ++ b) = none := by
    intro k hk b
    have hk15 : k < 15 := hk
    interval_cases k <;> exact matchHr_none_head (by decide) _
  have h1 : replaceHr (addMarpDirectives cfg te content) =
      chars "---\nmarp: true\n" ++ rescan matchHr R.length R := by
    rw [hR]
    unfold replaceHr
    rw [List.length_append]
    exact rescan_skip_cat matchHr _ hHr R.length R
  set R1 := rescan matchHr R.length R with hR1
  have h2 : insertHeadingBreaks (splitLines (replaceHr (addMarpDirectives cfg te content))) =
      chars "---" :: chars "marp: true" ::
        ihbAux (chars "---" :: chars "marp: true" :: splitLines R1) 2 (splitLines R1) := by
    rw [h1, splitLines_p15]
    exact ihbAux_two _ _
  cases hT : splitLines R1 with
  | nil => exact absurd hT (splitLines_ne_nil R1)
  | cons z zs =>
    rw [hT] at h2
    cases hZ : ihbAux (chars "---" :: chars "marp: true" :: z :: zs) 2 (z :: zs) with
    | nil => exact absurd hZ (ihbAux_ne_nil _ _ _ _)
    | cons w ws =>
      rw [hZ] at h2
      have h3 : joinLines (insertHeadingBreaks (splitLines (replaceHr
          (addMarpDirectives cfg te content)))) =
          chars "---\nmarp: true" ++ ('\n' :: joinLines (w :: ws)) := by
        rw [h2, joinLines_two]
        rfl
      have hB2 : ∀ k, k < (chars "---\nmarp: true").length →
          ∀ b : S, matchBreak2 ((chars "---\nmarp: true").drop k ++ b) = none := by
        intro k hk b
        have hk14 : k < 14 := hk
        interval_cases k <;> rfl
      have h4 : collapseBreaks (joinLines (insertHeadingBreaks (splitLines (replaceHr
          (addMarpDirectives cfg te content))))) =
          chars "---\nmarp: true" ++
            rescan matchBreak2 ('\n' :: joinLines (w :: ws)).length
              ('\n' :: joinLines (w :: ws)) := by
        rw [h3]
        unfold collapseBreaks
        rw [List.length_append]
        exact rescan_skip_cat matchBreak2 _ hB2 _ _
      refine ⟨rescan matchBreak2 ('\n' :: joinLines (w :: ws)).length
        ('\n' :: joinLines (w :: ws)), ?_⟩
      unfold structureSlides
      rw [h4, stripLeadingBreak_p14]

theorem isPre_head_ne {p c : Char} (ps : S) (h : p ≠ c) (t : S) :
    isPre (p :: ps) (c :: t) = false := by
  simp [isPre, h]

theorem dropWhile_cat (p : Char → Bool) (u v : S) :
    (u ++ v).dropWhile p =
      if (u.dropWhile p).isEmpty then v.dropWhile p else u.dropWhile p ++ v := by
  induction u with
  | nil => simp
  | cons c u' ih =>
    by_cases hc : p c = true
    · simp [List.dropWhile_cons, hc, ih]
    · simp [List.dropWhile_cons, hc]

theorem rstripWS_isEmpty (b : S) :
    (rstripWS b).isEmpty = (b.reverse.dropWhile wsChar).isEmpty := by
  unfold rstripWS
  cases b.reverse.dropWhile wsChar <;> simp

theorem rstripWS_cat (a b : S) :
    rstripWS (a ++ b) =
      if (rstripWS b).isEmpty then rstripWS a else a ++ rstripWS b := by
  rw [rstripWS_isEmpty]
  unfold rstripWS
  rw [List.reverse_append, dropWhile_cat]
  by_cases h : (b.reverse.dropWhile wsChar).isEmpty = true
  · rw [if_pos h, if_pos h]
  · rw [if_neg h, if_neg h, List.reverse_append, List.reverse_reverse]

theorem pyStrip_m10 (r : S) :
    ∃ x, pyStrip (chars "marp: true" ++ r) = chars "marp: true" ++ x := by
  unfold pyStrip lstripWS
  rw [show chars "marp: true" ++ r = 'm' :: (chars "arp: true" ++ r) from rfl]
  rw [List.dropWhile_cons]
  rw [if_neg (by decide : ¬wsChar 'm' = true)]
  rw [show 'm' :: (chars "arp: true" ++ r) = chars "marp: true" ++ r from rfl,
    rstripWS_cat]
  by_cases h : (rstripWS r).isEmpty = true
  · rw [if_pos h]
    refine ⟨[], ?_⟩
    rw [List.append_nil]
    decide
  · rw [if_neg h]
    exact ⟨rstripWS r, rfl⟩

theorem findOcc_nodash :
    ∀ a : S, (∀ c ∈ a, c ≠ '-') → ∀ b : S,
      findOcc brkLine (a ++ b) =
        (findOcc brkLine b).map (fun p => (a ++ p.1, p.2)) := by
  intro a
  induction a with
  | nil =>
    intro _ b
    cases h : findOcc brkLine b with
    | none => simp [h]
    | some p => simp [h]
  | cons c a' ih =>
    intro h b
    have hc : c ≠ '-' := h c (by simp)
    have hp : isPre brkLine (c :: (a' ++ b)) = false := by
      rw [show brkLine = '-' :: chars "--" from rfl]
      exact isPre_head_ne _ (fun he => hc he.symm) _
    have h' : ∀ c' ∈ a', c' ≠ '-' := fun c' hm => h c' (by simp [hm])
    rw [List.cons_append]
    show (if isPre brkLine (c :: (a' ++ b)) = true
      then some ([], (c :: (a' ++ b)).drop brkLine.length)
      else (findOcc brkLine (a' ++ b)).map (fun p => (c :: p.1, p.2))) = _
    rw [hp]
    simp only [Bool.false_eq_true, if_false, ih h' b]
    cases hf : findOcc brkLine b with
    | none => simp
    | some p => simp

theorem styledParts_m10 (y : S) (rest : List S) :
    ∃ x, styledParts 0 ((chars "marp: true" ++ y) :: rest) =
      (chars "marp: true" ++ x) :: styledParts 1 rest := by
  obtain ⟨x, hx⟩ := pyStrip_m10 y
  refine ⟨x, ?_⟩
  have hne : ¬(chars "marp: true" ++ x = []) := by
    rw [show chars "marp: true" ++ x = 'm' :: (chars "arp: true" ++ x) from rfl]
    simp
  have hm : isPre (chars "marp:") (chars "marp: true" ++ x) = true := by
    rw [show chars "marp: true" ++ x = chars "marp:" ++ (chars " true" ++ x) from rfl]
    exact isPre_self_cat _ _
  show (let t := pyStrip (chars "marp: true" ++ y);
    if t = [] then styledParts 1 rest
    else if 0 = 0 && isPre (chars "marp:") t then t :: styledParts 1 rest
    else styleSlide t :: styledParts 1 rest) = _
  simp only [hx]
  rw [if_neg hne]
  simp only [hm]
  rfl

theorem joinSep_m10 (x : S) (zs : List S) :
    ∃ K2, joinSep ((chars "marp: true" ++ x) :: zs) = chars "marp: true" ++ K2 := by
  cases zs with
  | nil => exact ⟨x, rfl⟩
  | cons z zs' =>
    refine ⟨x ++ sepBreak ++ joinSep (z :: zs'), ?_⟩
    show (chars "marp: true" ++ x) ++ sepBreak ++ joinSep (z :: zs') = _
    simp [List.append_assoc]

theorem applyStyling_m10 (K : S) :
    ∃ K2, applyStyling (chars "marp: true" ++ K) = chars "marp: true" ++ K2 := by
  have hnod : ∀ c ∈ chars "marp: true", c ≠ '-' := by decide
  unfold applyStyling splitOnBreaks
  rw [show splitGo ((chars "marp: true" ++ K).length + 1) (chars "marp: true" ++ K) =
    (match findOcc brkLine (chars "marp: true" ++ K) with
      | none => [chars "marp: true" ++ K]
      | some (b, a) => b :: splitGo ((chars "marp: true" ++ K).length) a) from rfl]
  rw [findOcc_nodash _ hnod K]
  cases hf : findOcc brkLine K with
  | none =>
    simp only [Option.map_none']
    obtain ⟨x, hx⟩ := styledParts_m10 K []
    rw [hx]
    exact joinSep_m10 x _
  | some p =>
    obtain ⟨b, a⟩ := p
    simp only [Option.map_some']
    obtain ⟨x, hx⟩ := styledParts_m10 b (splitGo ((chars "marp: true" ++ K).length) a)
    rw [hx]
    exact joinSep_m10 x _

/-- C1 (amended): for every configuration and input document, after
injecting directives and segmenting, the output *begins directly with the
directive line* `marp: true` — the opening `---` delimiter of the injected
front matter is removed by the leading-break cleanup of
`_structure_slides`, so the output is not an `---`-delimited block — and
the front-matter directives then pass through the styler unsegmented and
unstyled: the final pipeline output still begins with `marp: true` (no
style annotation is prepended to it) and does not begin with a break
marker. -/
theorem claim1_amended_front_matter (cfg : MarpConfig) (te : Bool) (content : S) :
    isPre (chars "marp: true") (structureSlides (addMarpDirectives cfg te content)) = true ∧
    isPre (chars "marp: true") (processClaudeContent cfg te content) = true ∧
    isPre (chars "---") (processClaudeContent cfg te content) = false := by
  obtain ⟨K, hK⟩ := structureSlides_marp cfg te content
  obtain ⟨K2, hK2⟩ := applyStyling_m10 K
  have hp : processClaudeContent cfg te content = chars "marp: true" ++ K2 := by
    unfold processClaudeContent
    rw [hK, hK2]
  refine ⟨?_, ?_, ?_⟩
  · rw [hK]
    exact isPre_self_cat _ _
  · rw [hp]
    exact isPre_self_cat _ _
  · rw [hp, show chars "marp: true" ++ K2 = 'm' :: (chars "arp: true" ++ K2) from rfl]
    exact isPre_head_ne _ (by decide) _

/-- C1 counterexample: for the concrete document `hello` (default
configuration, no custom theme css), the pipeline output contains no
substring `---\nmarp: true` — hence no well-formed `---`-delimited
front-matter block whose first directive line is `marp: true` — and does
not even start with `---`. -/
theorem claim1_counterexample :
    isSub (chars "---\nmarp: true")
        (processClaudeContent defaultConfig false (chars "hello")) = false ∧
      isPre (chars "---")
        (processClaudeContent defaultConfig false (chars "hello")) = false := by
  constructor <;> decide

theorem mem_of_mem_dropWhile {p : Char → Bool} {c : Char} :
    ∀ {l : S}, c ∈ l.dropWhile p → c ∈ l := by
  intro l
  induction l with
  | nil => intro h; exact h
  | cons x xs ih =>
    intro h
    rw [List.dropWhile_cons] at h
    by_cases hx : p x = true
    · rw [if_pos hx] at h
      exact List.mem_cons_of_mem x (ih h)
    · rw [if_neg hx] at h
      exact h

theorem mem_of_mem_stripC {cs : List Char} {c : Char} {s : S}
    (h : c ∈ stripC cs s) : c ∈ s := by
  unfold stripC rstripC lstripC at h
  rw [List.mem_reverse] at h
  have h1 := mem_of_mem_dropWhile h
  rw [List.mem_reverse] at h1
  exact mem_of_mem_dropWhile h1

theorem mem_foldl_filter {c : Char} :
    ∀ (cs : List Char) (s : S),
      c ∈ cs.foldl (fun acc d => acc.filter (fun y => y ≠ d)) s →
        c ∈ s ∧ c ∉ cs := by
  intro cs
  induction cs with
  | nil => intro s h; exact ⟨h, by simp⟩
  | cons d ds ih =>
    intro s h
    rw [List.foldl_cons] at h
    obtain ⟨h1, h2⟩ := ih (s.filter (fun y => y ≠ d)) h
    have h3 : c ∈ s := List.mem_of_mem_filter h1
    have h4 : c ≠ d := by
      have := List.of_mem_filter h1
      simpa using this
    exact ⟨h3, by simp [h4, h2]⟩

/-- C2 (amended): the sanitizer is total, its output never contains any of
the reserved characters `< > : " | ? * \ / NUL`, and the inputs `""`,
`".."` and `"<>:|\"?*"` all fall back to `presentation`.  The original
claim's remaining clauses — idempotence and absence of `..` in the output
— do not hold of the code (see the counterexample): removing a reserved
character can bring two dots together, because `..` removal runs before
reserved-character removal. -/
theorem claim2_sanitizer_amended :
    (∀ x : S, ∀ c ∈ invalidChars, c ∉ sanitizeFilename x) ∧
      sanitizeFilename (chars "") = chars "presentation" ∧
      sanitizeFilename (chars "..") = chars "presentation" ∧
      sanitizeFilename (chars "<>:|\"?*") = chars "presentation" := by
  refine ⟨?_, by decide, by decide, by decide⟩
  intro x c hc
  show c ∉ (if stripC (chars ". ")
      (invalidChars.foldl (fun acc d => acc.filter (fun y => y ≠ d))
        (replaceDots (basename x))) = []
    then chars "presentation"
    else stripC (chars ". ")
      (invalidChars.foldl (fun acc d => acc.filter (fun y => y ≠ d))
        (replaceDots (basename x))))
  by_cases h4 : stripC (chars ". ")
      (invalidChars.foldl (fun acc d => acc.filter (fun y => y ≠ d))
        (replaceDots (basename x))) = []
  · rw [if_pos h4]
    fin_cases hc <;> decide
  · rw [if_neg h4]
    intro hmem
    exact (mem_foldl_filter invalidChars _ (mem_of_mem_stripC hmem)).2 hc

/-- C2 witness: the reserved character `<` is indeed absent from the
sanitized form of `a<b`. -/
theorem claim2_sanitizer_amended_witness :
    '<' ∈ invalidChars ∧ '<' ∉ sanitizeFilename (chars "a<b") :=
  ⟨by decide, claim2_sanitizer_amended.1 (chars "a<b") '<' (by decide)⟩

/-- C2 counterexample: `sanitize("a.<.b") = "a..b"`, which contains `..`,
and sanitizing it again gives `"ab"`, so the sanitizer is neither
`..`-free nor idempotent as the claim states. -/
theorem claim2_counterexample :
    isSub (chars "..") (sanitizeFilename (chars "a.<.b")) = true ∧
      sanitizeFilename (sanitizeFilename (chars "a.<.b")) ≠
        sanitizeFilename (chars "a.<.b") := by
  constructor
  · decide
  · decide

/-- C4: the style tag is a pure function of the trimmed slide content; the
source's per-slide styling step realizes exactly the first-match-wins
decision table (title ⇒ lead, else fenced code ⇒ code, else more than 10
line breaks ⇒ dense, else no annotation); in particular a slide that
contains a level-1 title heading classifies `lead` even when it also
contains a fenced code block. -/
theorem claim4_style_precedence :
    (∀ s₁ s₂ : S, pyStrip s₁ = pyStrip s₂ →
      classOf (pyStrip s₁) = classOf (pyStrip s₂)) ∧
      (∀ t : S, styleSlide t = classComment (classOf t) ++ t) ∧
      (∀ t : S, titleSearch t = true → classOf t = .lead) ∧
      (∀ t : S, titleSearch t = false → hasTicks t = true → classOf t = .code) ∧
      (∀ t : S, titleSearch t = false → hasTicks t = false → 10 < t.count '\n' →
        classOf t = .dense) ∧
      (∀ t : S, titleSearch t = false → hasTicks t = false →
        ¬(10 < t.count '\n') → classOf t = .plain) := by
  refine ⟨fun s₁ s₂ h => by rw [h], ?_, ?_, ?_, ?_, ?_⟩
  · intro t
    unfold styleSlide classOf
    split_ifs <;> rfl
  · intro t h
    unfold classOf
    rw [if_pos h]
  · intro t h1 h2
    unfold classOf
    rw [if_neg (by simp [h1]), if_pos h2]
  · intro t h1 h2 h3
    unfold classOf
    rw [if_neg (by simp [h1]), if_neg (by simp [h2]), if_pos h3]
  · intro t h1 h2 h3
    unfold classOf
    rw [if_neg (by simp [h1]), if_neg (by simp [h2]), if_neg h3]

/-- C4 witness: a concrete slide that both begins with a level-1 heading
and contains a fenced code block is tagged `lead`, not `code`, and the
styling step prepends exactly the `lead` annotation. -/
theorem claim4_style_precedence_witness :
    titleSearch (chars "# Demo\n```py\nx = 1\n```") = true ∧
      hasTicks (chars "# Demo\n```py\nx = 1\n```") = true ∧
      classOf (chars "# Demo\n```py\nx = 1\n```") = SlideClass.lead ∧
      styleSlide (chars "# Demo\n```py\nx = 1\n```") =
        chars "<!-- _class: lead -->\n\n" ++ chars "# Demo\n```py\nx = 1\n```" := by
  refine ⟨by decide, by decide, claim4_style_precedence.2.2.1 _ (by decide), ?_⟩
  rw [claim4_style_precedence.2.1, claim4_style_precedence.2.2.1 _ (by decide)]
  rfl

/-- C5: an absent (`None`) document makes `process_claude_content` raise
`ValueError("Content cannot be None")` before any pipeline stage runs, and
makes `generate_presentation` (for any valid format) return a failed
outcome carrying that error with no file written and no external
invocation issued; the empty string is instead a valid input whose output
is the minimal document consisting of the directive block alone. -/
theorem claim5_absent_document :
    (∀ (cfg : MarpConfig) (te : Bool),
      processContentChecked cfg te none = .error (chars "Content cannot be None")) ∧
      (∀ (outDir themeDir : S) (te css : Bool) (fname fmt : S) (cfg : MarpConfig)
        (marp : MarpRun), fmt ∈ validFormats →
        (generatePresentation outDir themeDir te css none fname fmt cfg marp).writes
            = [] ∧
          (generatePresentation outDir themeDir te css none fname fmt cfg
            marp).invocation = none ∧
          (generatePresentation outDir themeDir te css none fname fmt cfg
            marp).result.success = false ∧
          (generatePresentation outDir themeDir te css none fname fmt cfg
            marp).result.errorMessage =
            some (chars "Unexpected error: Content cannot be None")) ∧
      processClaudeContent defaultConfig false (chars "") =
        chars "marp: true\ntheme: default\npaginate: true\nbackgroundColor: #ffffff\ncolor: #2c3e50\nhtml: true\npdf.outlines: true" := by
  refine ⟨fun cfg te => rfl, ?_, by decide⟩
  intro outDir themeDir te css fname fmt cfg marp hfmt
  simp only [validFormats, List.mem_cons, List.mem_singleton,
    List.not_mem_nil, or_false] at hfmt
  rcases hfmt with rfl | rfl | rfl <;> exact ⟨rfl, rfl, rfl, rfl⟩

/-- C5 witness: concrete instance of the absent-document branch for the
`pptx` format. -/
theorem claim5_absent_document_witness :
    chars "pptx" ∈ validFormats ∧
      (generatePresentation (chars "presentations") (chars "themes") false false
        none (chars "deck") (chars "pptx") defaultConfig MarpRun.ok).writes = [] ∧
      (generatePresentation (chars "presentations") (chars "themes") false false
        none (chars "deck") (chars "pptx") defaultConfig
        MarpRun.ok).result.errorMessage =
        some (chars "Unexpected error: Content cannot be None") := by
  refine ⟨by decide, ?_, ?_⟩
  · exact (claim5_absent_document.2.1 (chars "presentations") (chars "themes")
      false false (chars "deck") (chars "pptx") defaultConfig MarpRun.ok
      (by decide)).1
  · exact (claim5_absent_document.2.1 (chars "presentations") (chars "themes")
      false false (chars "deck") (chars "pptx") defaultConfig MarpRun.ok
      (by decide)).2.2.2

/-- C6: for every output format outside `{pptx, pdf, html}`,
`generate_presentation` fails before any file is written (and before any
external invocation), with an error message that is exactly the invalid
value spliced between a fixed prefix and the rendered allowed set — in
particular the message contains the invalid value and the three allowed
format names as substrings. -/
theorem claim6_invalid_format (outDir themeDir : S) (te css : Bool)
    (content : Option S) (fname fmt : S) (cfg : MarpConfig) (marp : MarpRun)
    (h : fmt ∉ validFormats) :
    (generatePresentation outDir themeDir te css content fname fmt cfg marp).writes
        = [] ∧
      (generatePresentation outDir themeDir te css content fname fmt cfg
        marp).invocation = none ∧
      (generatePresentation outDir themeDir te css content fname fmt cfg
        marp).result.success = false ∧
      (generatePresentation outDir themeDir te css content fname fmt cfg
        marp).result.outputPath = none ∧
      (generatePresentation outDir themeDir te css content fname fmt cfg
        marp).result.errorMessage =
        some (chars "Invalid output format: " ++ fmt
          ++ chars ". Must be one of ['pptx', 'pdf', 'html']") ∧
      isSub fmt (chars "Invalid output format: " ++ fmt
        ++ chars ". Must be one of ['pptx', 'pdf', 'html']") = true ∧
      isSub (chars "pptx") (chars "Invalid output format: " ++ fmt
        ++ chars ". Must be one of ['pptx', 'pdf', 'html']") = true ∧
      isSub (chars "pdf") (chars "Invalid output format: " ++ fmt
        ++ chars ". Must be one of ['pptx', 'pdf', 'html']") = true ∧
      isSub (chars "html") (chars "Invalid output format: " ++ fmt
        ++ chars ". Must be one of ['pptx', 'pdf', 'html']") = true := by
  have hgen : generatePresentation outDir themeDir te css content fname fmt cfg marp =
      ⟨⟨false, none,
        some (chars "Invalid output format: " ++ fmt
          ++ chars ". Must be one of ['pptx', 'pdf', 'html']"), none⟩, [], none⟩ := by
    simp only [generatePresentation]
    rw [if_neg h]
  refine ⟨by rw [hgen], by rw [hgen], by rw [hgen], by rw [hgen], by rw [hgen],
    isSub_of_decomp fmt _ _, ?_, ?_, ?_⟩
  · exact isSub_cat_left (chars "Invalid output format: " ++ fmt)
      (by decide :
        isSub (chars "pptx") (chars ". Must be one of ['pptx', 'pdf', 'html']") = true)
  · exact isSub_cat_left (chars "Invalid output format: " ++ fmt)
      (by decide :
        isSub (chars "pdf") (chars ". Must be one of ['pptx', 'pdf', 'html']") = true)
  · exact isSub_cat_left (chars "Invalid output format: " ++ fmt)
      (by decide :
        isSub (chars "html") (chars ". Must be one of ['pptx', 'pdf', 'html']") = true)

/-- C6 witness: the rejected format `docx` produces no write and the
expected message. -/
theorem claim6_invalid_format_witness :
    chars "docx" ∉ validFormats ∧
      (generatePresentation (chars "presentations") (chars "themes") false false
        (some (chars "# T")) (chars "deck") (chars "docx") defaultConfig
        MarpRun.ok).writes = [] ∧
      (generatePresentation (chars "presentations") (chars "themes") false false
        (some (chars "# T")) (chars "deck") (chars "docx") defaultConfig
        MarpRun.ok).result.errorMessage =
        some (chars "Invalid output format: docx. Must be one of ['pptx', 'pdf', 'html']") := by
  refine ⟨by decide, ?_, ?_⟩
  · exact (claim6_invalid_format (chars "presentations") (chars "themes") false false
      (some (chars "# T")) (chars "deck") (chars "docx") defaultConfig MarpRun.ok
      (by decide)).1
  · rw [(claim6_invalid_format (chars "presentations") (chars "themes") false false
      (some (chars "# T")) (chars "deck") (chars "docx") defaultConfig MarpRun.ok
      (by decide)).2.2.2.2.1]
    rfl

/-- C7: when the external renderer fails (`CalledProcessError`) after the
markdown file has been written, the outcome has `success = false`, an
error message wrapping the renderer's error text (`stderr`, else `stdout`,
else the exception's own text), and the already-written markdown path is
preserved in the outcome; the write of the markdown file is part of the
run's effects. -/
theorem claim7_render_failure (outDir themeDir : S) (te css : Bool) (c fname fmt : S)
    (cfg : MarpConfig) (stderr stdout excStr : S) (hfmt : fmt ∈ validFormats) :
    (generatePresentation outDir themeDir te css (some c) fname fmt cfg
        (.err stderr stdout excStr)).result.success = false ∧
      (generatePresentation outDir themeDir te css (some c) fname fmt cfg
        (.err stderr stdout excStr)).result.errorMessage =
        some (chars "MARP conversion failed: " ++ orElse stderr (orElse stdout excStr)) ∧
      (stderr ≠ [] →
        (generatePresentation outDir themeDir te css (some c) fname fmt cfg
          (.err stderr stdout excStr)).result.errorMessage =
          some (chars "MARP conversion failed: " ++ stderr)) ∧
      (generatePresentation outDir themeDir te css (some c) fname fmt cfg
        (.err stderr stdout excStr)).result.markdownPath =
        some (outDir ++ chars "/" ++ sanitizeFilename fname ++ chars ".md") ∧
      (generatePresentation outDir themeDir te css (some c) fname fmt cfg
        (.err stderr stdout excStr)).writes =
        [(outDir ++ chars "/" ++ sanitizeFilename fname ++ chars ".md",
          processClaudeContent cfg te c)] := by
  simp only [validFormats, List.mem_cons, List.mem_singleton,
    List.not_mem_nil, or_false] at hfmt
  have horElse : stderr ≠ [] → orElse stderr (orElse stdout excStr) = stderr := by
    intro hne
    unfold orElse
    rw [if_neg hne]
  rcases hfmt with rfl | rfl | rfl <;>
    exact ⟨rfl, rfl, fun hne => by
      show some (chars "MARP conversion failed: " ++ orElse stderr (orElse stdout excStr))
        = some (chars "MARP conversion failed: " ++ stderr)
      rw [horElse hne], rfl, rfl⟩

/-- C7 witness: a concrete failed render with captured stderr `boom`
preserves the markdown path and wraps the error text. -/
theorem claim7_render_failure_witness :
    chars "pptx" ∈ validFormats ∧ chars "boom" ≠ ([] : S) ∧
      (generatePresentation (chars "presentations") (chars "themes") false false
        (some (chars "# T")) (chars "deck") (chars "pptx") defaultConfig
        (.err (chars "boom") (chars "") (chars "exc"))).result.markdownPath =
        some (chars "presentations" ++ chars "/" ++ sanitizeFilename (chars "deck")
          ++ chars ".md") ∧
      (generatePresentation (chars "presentations") (chars "themes") false false
        (some (chars "# T")) (chars "deck") (chars "pptx") defaultConfig
        (.err (chars "boom") (chars "") (chars "exc"))).result.errorMessage =
        some (chars "MARP conversion failed: " ++ chars "boom") := by
  refine ⟨by decide, by decide, ?_, ?_⟩
  · exact (claim7_render_failure (chars "presentations") (chars "themes") false false
      (chars "# T") (chars "deck") (chars "pptx") defaultConfig (chars "boom")
      (chars "") (chars "exc") (by decide)).2.2.2.1
  · exact (claim7_render_failure (chars "presentations") (chars "themes") false false
      (chars "# T") (chars "deck") (chars "pptx") defaultConfig (chars "boom")
      (chars "") (chars "exc") (by decide)).2.2.1 (by decide)

/-- C9: for every filename — including ones with shell metacharacters —
and every valid format, the external renderer is invoked as a literal
argument vector (never a shell command string), whose markdown-path
argument is verbatim `outputDir / sanitized-name.md`; the metacharacters
`; & \x60 $ ( )` are not in the sanitizer's removal set and survive
verbatim into that path. -/
theorem claim9_argument_vector (outDir themeDir : S) (te css : Bool) (c fname fmt : S)
    (cfg : MarpConfig) (marp : MarpRun) (hfmt : fmt ∈ validFormats) :
    (generatePresentation outDir themeDir te css (some c) fname fmt cfg
        marp).invocation =
      some (Invocation.argv ([chars "marp",
        outDir ++ chars "/" ++ sanitizeFilename fname ++ chars ".md"]
        ++ fmtFlags fmt
        ++ [chars "--output",
          outDir ++ chars "/" ++ sanitizeFilename fname ++ chars "." ++ fmt]
        ++ (if css then [chars "--theme-set", themeDir] else []))) ∧
      (∀ sh, (generatePresentation outDir themeDir te css (some c) fname fmt cfg
        marp).invocation = some (Invocation.shell sh) → False) ∧
      sanitizeFilename (chars "a;&`$()b") = chars "a;&`$()b" := by
  simp only [validFormats, List.mem_cons, List.mem_singleton,
    List.not_mem_nil, or_false] at hfmt
  have h1 : (generatePresentation outDir themeDir te css (some c) fname fmt cfg
      marp).invocation =
      some (Invocation.argv ([chars "marp",
        outDir ++ chars "/" ++ sanitizeFilename fname ++ chars ".md"]
        ++ fmtFlags fmt
        ++ [chars "--output",
          outDir ++ chars "/" ++ sanitizeFilename fname ++ chars "." ++ fmt]
        ++ (if css then [chars "--theme-set", themeDir] else []))) := by
    rcases hfmt with rfl | rfl | rfl <;> cases marp <;> rfl
  refine ⟨h1, ?_, by decide⟩
  intro sh hsh
  rw [h1] at hsh
  simp at hsh

/-- C9 witness: for the metacharacter filename `a;&`$()b` and format
`pptx`, the issued invocation is the literal argument vector with the
sanitized name verbatim in the path arguments. -/
theorem claim9_argument_vector_witness :
    chars "pptx" ∈ validFormats ∧
      sanitizeFilename (chars "a;&`$()b") = chars "a;&`$()b" ∧
      (generatePresentation (chars "presentations") (chars "themes") false false
        (some (chars "# T")) (chars "a;&`$()b") (chars "pptx") defaultConfig
        MarpRun.ok).invocation =
        some (Invocation.argv ([chars "marp",
          chars "presentations" ++ chars "/" ++ sanitizeFilename (chars "a;&`$()b")
            ++ chars ".md"]
          ++ fmtFlags (chars "pptx")
          ++ [chars "--output",
            chars "presentations" ++ chars "/" ++ sanitizeFilename (chars "a;&`$()b")
              ++ chars "." ++ chars "pptx"]
          ++ (if false then [chars "--theme-set", chars "themes"] else []))) := by
  refine ⟨by decide, by decide, ?_⟩
  exact (claim9_argument_vector (chars "presentations") (chars "themes") false false
    (chars "# T") (chars "a;&`$()b") (chars "pptx") defaultConfig MarpRun.ok
    (by decide)).1

theorem getD_cat_self (p : List S) (x : S) (t : List S) :
    (p ++ x :: t).getD p.length [] = x := by
  induction p with
  | nil => rfl
  | cons y p' ih => simpa using ih

theorem lastNB_cat_singleton (p : List S) (x : S) :
    lastNB (p ++ [x]) = if pyStrip x = [] then lastNB p else some x := by
  unfold lastNB scanState
  rw [List.foldl_append]
  rfl

theorem prevNB_cat (pre : List S) : ∀ ls : List S,
    prevNB (pre ++ ls) pre.length = lastNB pre := by
  induction pre using List.reverseRecOn with
  | nil => intro ls; rfl
  | append_singleton p x ih =>
    intro ls
    have h2 : (p ++ [x]) ++ ls = p ++ x :: ls := by simp
    have h3 : (p ++ [x]).length = p.length + 1 := by simp
    rw [h2, h3]
    show (if pyStrip ((p ++ x :: ls).getD p.length []) = []
      then prevNB (p ++ x :: ls) p.length
      else some ((p ++ x :: ls).getD p.length [])) = lastNB (p ++ [x])
    rw [getD_cat_self p x ls, ih (x :: ls), lastNB_cat_singleton]

theorem ihbAux_eq_specScan (all : List S) :
    ∀ (ls pre : List S), all = pre ++ ls →
      ihbAux all pre.length ls = specScan (lastNB pre) ls := by
  intro ls
  induction ls with
  | nil => intro pre _; rfl
  | cons l rest ih =>
    intro pre h
    subst h
    have hok : prevOk (pre ++ l :: rest) pre.length = prevAllows (lastNB pre) := by
      unfold prevOk prevAllows
      rw [prevNB_cat pre (l :: rest)]
    have hstep : ihbAux (pre ++ l :: rest) (pre.length + 1) rest =
        specScan (if pyStrip l = [] then lastNB pre else some l) rest := by
      have h2 : pre ++ l :: rest = (pre ++ [l]) ++ rest := by simp
      have h4 := ih (pre ++ [l]) h2
      rw [show (pre ++ [l]).length = pre.length + 1 by simp,
        lastNB_cat_singleton] at h4
      exact h4
    show (if isHeading l && prevOk (pre ++ l :: rest) pre.length then
        brkLine :: l :: ihbAux (pre ++ l :: rest) (pre.length + 1) rest
      else l :: ihbAux (pre ++ l :: rest) (pre.length + 1) rest) =
      (if isHeading l && prevAllows (lastNB pre) then
        brkLine :: l :: specScan (if pyStrip l = [] then lastNB pre else some l) rest
      else l :: specScan (if pyStrip l = [] then lastNB pre else some l) rest)
    rw [hok, hstep]

theorem ihb_eq_specScan (lines : List S) :
    insertHeadingBreaks lines = specScan none lines := by
  have h := ihbAux_eq_specScan lines lines [] rfl
  exact h

theorem specScan_cat (xs : List S) : ∀ (prev : Option S) (ys : List S),
    specScan prev (xs ++ ys) = specScan prev xs ++ specScan (scanState prev xs) ys := by
  induction xs with
  | nil => intro prev ys; rfl
  | cons x xs' ih =>
    intro prev ys
    have hst : scanState prev (x :: xs') =
        scanState (if pyStrip x = [] then prev else some x) xs' := by
      unfold scanState
      rw [List.foldl_cons]
    rw [List.cons_append]
    show (if isHeading x && prevAllows prev then
        brkLine :: x :: specScan (if pyStrip x = [] then prev else some x) (xs' ++ ys)
      else x :: specScan (if pyStrip x = [] then prev else some x) (xs' ++ ys)) = _
    rw [hst]
    by_cases h : (isHeading x && prevAllows prev) = true
    · rw [if_pos h]
      show _ = (if isHeading x && prevAllows prev then
          brkLine :: x :: specScan (if pyStrip x = [] then prev else some x) xs'
        else x :: specScan (if pyStrip x = [] then prev else some x) xs') ++ _
      rw [if_pos h, ih]
      rfl
    · rw [if_neg h]
      show _ = (if isHeading x && prevAllows prev then
          brkLine :: x :: specScan (if pyStrip x = [] then prev else some x) xs'
        else x :: specScan (if pyStrip x = [] then prev else some x) xs') ++ _
      rw [if_neg h, ih]
      rfl

theorem replaceHr_id {s : S} (h : ∀ c ∈ s, c ≠ '<') : replaceHr s = s := by
  apply rescan_id
  intro a b hab
  cases b with
  | nil => rfl
  | cons c cs =>
    have hc : c ∈ s := by
      rw [hab]
      simp
    exact matchHr_none_head (h c hc) cs

theorem ihbAux_id (all : List S) :
    ∀ (ls : List S) (i : Nat), (∀ l ∈ ls, isHeading l = false) →
      ihbAux all i ls = ls := by
  intro ls
  induction ls with
  | nil => intro i _; rfl
  | cons l rest ih =>
    intro i h
    have hl : isHeading l = false := h l (by simp)
    show (if isHeading l && prevOk all i then
        brkLine :: l :: ihbAux all (i + 1) rest
      else l :: ihbAux all (i + 1) rest) = l :: rest
    rw [hl]
    simp only [Bool.false_and, Bool.false_eq_true, if_false]
    exact congrArg (l :: ·) (ih (i + 1) (fun l' hm => h l' (by simp [hm])))

theorem collapseBreaks_id {s : S} (h : isSub brkLine s = false) :
    collapseBreaks s = s := by
  apply rescan_id
  intro a b hab
  unfold matchBreak2
  by_cases hp : isPre (chars "\n---\n---\n") b = true
  · exfalso
    obtain ⟨r, hbr⟩ : ∃ r, b = chars "\n---\n---\n" ++ r := ⟨_, isPre_drop hp⟩
    have hs : s = (a ++ ['\n']) ++ brkLine ++ (chars "\n---\n" ++ r) := by
      rw [hab, hbr]
      simp only [List.append_assoc]
      rfl
    rw [hs, isSub_of_decomp] at h
    exact Bool.true_eq_false.mp h
  · rw [if_neg hp]

theorem stripLeadingBreak_id {s : S} (h : isSub brkLine s = false) :
    stripLeadingBreak s = s := by
  unfold stripLeadingBreak
  by_cases hp : isPre (chars "---\n") s = true
  · exfalso
    have hs : s = [] ++ brkLine ++ ('\n' :: s.drop 4) := by
      have := isPre_drop hp
      simpa using this
    rw [hs, isSub_of_decomp] at h
    exact Bool.true_eq_false.mp h
  · rw [if_neg hp]

theorem findOcc_none_of_not_isSub {pat : S} :
    ∀ {s : S}, isSub pat s = false → findOcc pat s = none := by
  intro s
  induction s with
  | nil =>
    intro h
    unfold findOcc isSub at *
    rw [if_neg (by simp [h])]
  | cons c cs ih =>
    intro h
    have h2 : isPre pat (c :: cs) = false ∧ isSub pat cs = false := by
      have := h
      unfold isSub at this
      exact ⟨by rcases Bool.or_eq_false_iff.mp this with ⟨h1, _⟩; exact h1,
        by rcases Bool.or_eq_false_iff.mp this with ⟨_, h2⟩; exact h2⟩
    show (if isPre pat (c :: cs) = true then some ([], (c :: cs).drop pat.length)
      else (findOcc pat cs).map (fun p => (c :: p.1, p.2))) = none
    rw [if_neg (by simp [h2.1]), ih h2.2]
    rfl

theorem splitOnBreaks_single {s : S} (h : isSub brkLine s = false) :
    splitOnBreaks s = [s] := by
  unfold splitOnBreaks
  show (match findOcc brkLine s with
    | none => [s]
    | some (b, a) => b :: splitGo s.length a) = [s]
  rw [findOcc_none_of_not_isSub h]

/-- C8: (1) the segmenter's per-index backward scan is exactly the spec's
forward scan: before every level-1/level-2 heading line whose nearest
preceding non-blank line exists and is not already the canonical marker,
one marker is inserted, and no duplicate is inserted when the nearest
preceding non-blank line is the marker; (2) a level-3-or-deeper heading
never matches the heading pattern; (3) a document with no heading lines,
no hr tags and no `---` occurrence passes through segmentation unchanged
and remains a single slide. -/
theorem claim8_segmentation :
    (∀ lines : List S, insertHeadingBreaks lines = specScan none lines) ∧
      (∀ rest : S, isHeading ('#' :: '#' :: '#' :: rest) = false) ∧
      (∀ s : S, (∀ c ∈ s, c ≠ '<') → isSub brkLine s = false →
        (∀ l ∈ splitLines s, isHeading l = false) →
        structureSlides s = s ∧ splitOnBreaks s = [s]) := by
  refine ⟨ihb_eq_specScan, fun rest => rfl, ?_⟩
  intro s h1 h2 h3
  refine ⟨?_, splitOnBreaks_single h2⟩
  unfold structureSlides insertHeadingBreaks
  rw [replaceHr_id h1, ihbAux_id _ _ _ h3, joinLines_splitLines,
    collapseBreaks_id h2, stripLeadingBreak_id h2]

/-- C8 witness: a concrete headingless, breakless document passes through
segmentation unchanged as a single slide. -/
theorem claim8_segmentation_witness :
    (∀ c ∈ chars "plain text\nmore words", c ≠ '<') ∧
      isSub brkLine (chars "plain text\nmore words") = false ∧
      (∀ l ∈ splitLines (chars "plain text\nmore words"), isHeading l = false) ∧
      structureSlides (chars "plain text\nmore words") =
        chars "plain text\nmore words" ∧
      splitOnBreaks (chars "plain text\nmore words") =
        [chars "plain text\nmore words"] := by
  refine ⟨by decide, by decide, by decide, ?_, ?_⟩
  · exact (claim8_segmentation.2.2 _ (by decide) (by decide) (by decide)).1
  · exact (claim8_segmentation.2.2 _ (by decide) (by decide) (by decide)).2

/-- C10 (implicit behaviour): heading detection is applied line by line
with no fenced-code-block state: whenever a line matches the heading
pattern and its nearest preceding non-blank line is not the canonical
marker, a marker is inserted before it — whatever surrounds it, so in
particular inside a fenced code block; concretely, the `# comment` line of
a fenced shell snippet receives a slide break. -/
theorem claim10_fence_blind :
    (∀ (pre : List S) (l : S) (post : List S) (f : S),
      isHeading l = true → lastNB pre = some f → pyStrip f ≠ brkLine →
      ∃ A B, insertHeadingBreaks (pre ++ l :: post) = A ++ brkLine :: l :: B) ∧
      structureSlides (chars "```bash\necho hi\n# comment\n```") =
        chars "```bash\necho hi\n---\n# comment\n```" := by
  constructor
  · intro pre l post f hl hf hok
    refine ⟨specScan none pre,
      specScan (if pyStrip l = [] then some f else some l) post, ?_⟩
    rw [ihb_eq_specScan, specScan_cat]
    have hs : scanState none pre = some f := hf
    rw [hs]
    show _ ++ (if isHeading l && prevAllows (some f) then
        brkLine :: l :: specScan (if pyStrip l = [] then some f else some l) post
      else l :: specScan (if pyStrip l = [] then some f else some l) post) = _
    rw [hl, show prevAllows (some f) = true by simp [prevAllows, hok]]
    rfl
  · decide

/-- C10 witness: a concrete fenced snippet whose `# x` line sits after the
non-blank, non-marker fence opener gets a marker inserted before it. -/
theorem claim10_fence_blind_witness :
    isHeading (chars "# x") = true ∧
      lastNB [chars "```sh"] = some (chars "```sh") ∧
      pyStrip (chars "```sh") ≠ brkLine ∧
      (∃ A B, insertHeadingBreaks ([chars "```sh"] ++ chars "# x" :: []) =
        A ++ brkLine :: chars "# x" :: B) := by
  refine ⟨by decide, by decide, by decide, ?_⟩
  exact claim10_fence_blind.1 [chars "```sh"] (chars "# x") [] (chars "```sh")
    (by decide) (by decide) (by decide)

theorem isSub_true_decomp {p : S} :
    ∀ {s : S}, isSub p s = true → ∃ x y, s = x ++ p ++ y := by
  intro s
  induction s with
  | nil =>
    intro h
    have hp : p = [] := by
      cases p with
      | nil => rfl
      | cons a ps => simp [isSub, isPre] at h
    exact ⟨[], [], by simp [hp]⟩
  | cons c cs ih =>
    intro h
    rcases Bool.or_eq_true_iff.mp h with h1 | h2
    · exact ⟨[], (c :: cs).drop p.length, by simpa using isPre_drop h1⟩
    · obtain ⟨x, y, hxy⟩ := ih h2
      exact ⟨c :: x, y, by simp [hxy]⟩

theorem dropWhile_suffix (p : Char → Bool) :
    ∀ l : S, ∃ u, l = u ++ l.dropWhile p := by
  intro l
  induction l with
  | nil => exact ⟨[], rfl⟩
  | cons c t ih =>
    by_cases hc : p c = true
    · obtain ⟨u, hu⟩ := ih
      refine ⟨c :: u, ?_⟩
      rw [List.dropWhile_cons, if_pos hc, List.cons_append, ← hu]
    · refine ⟨[], ?_⟩
      rw [List.dropWhile_cons, if_neg hc]
      rfl

theorem isSub_of_isSub_pyStrip {p s : S} (h : isSub p (pyStrip s) = true) :
    isSub p s = true := by
  obtain ⟨x, y, hxy⟩ := isSub_true_decomp h
  obtain ⟨u, hu⟩ := dropWhile_suffix wsChar s
  obtain ⟨u2, hu2⟩ := dropWhile_suffix wsChar (lstripWS s).reverse
  have hls : lstripWS s = pyStrip s ++ u2.reverse := by
    have h3 := congrArg List.reverse hu2
    rw [List.reverse_reverse, List.reverse_append] at h3
    exact h3
  have hs : s = u ++ (pyStrip s ++ u2.reverse) := by
    rw [← hls]
    exact hu
  rw [hs, hxy, show u ++ ((x ++ p ++ y) ++ u2.reverse)
    = (u ++ x) ++ p ++ (y ++ u2.reverse) by simp [List.append_assoc]]
  exact isSub_of_decomp _ _ _

theorem pyStrip_no_brk {sl : S} (h : isSub brkLine sl = false) :
    isSub brkLine (pyStrip sl) = false := by
  by_cases hq : isSub brkLine (pyStrip sl) = true
  · exact absurd (isSub_of_isSub_pyStrip hq) (by simp [h])
  · simpa using hq

theorem lines_ne_brk_of_no_brk {t : S} (h : isSub brkLine t = false) :
    ∀ l ∈ splitLines t, l ≠ brkLine := by
  intro l hl he
  subst he
  exact absurd (mem_splitLines_isSub hl) (by simp [h])

theorem splitLines_leadC (t : S) :
    splitLines (leadC ++ t) = chars "<!-- _class: lead -->" :: [] :: splitLines t := by
  rw [show leadC ++ t = chars "<!-- _class: lead -->" ++ '\n' :: ('\n' :: t) from rfl,
    splitLines_cat_nl, splitLines_cons_nl]
  rfl

theorem splitLines_codeC (t : S) :
    splitLines (codeC ++ t) = chars "<!-- _class: code -->" :: [] :: splitLines t := by
  rw [show codeC ++ t = chars "<!-- _class: code -->" ++ '\n' :: ('\n' :: t) from rfl,
    splitLines_cat_nl, splitLines_cons_nl]
  rfl

theorem splitLines_denseC (t : S) :
    splitLines (denseC ++ t) = chars "<!-- _class: dense -->" :: [] :: splitLines t := by
  rw [show denseC ++ t = chars "<!-- _class: dense -->" ++ '\n' :: ('\n' :: t) from rfl,
    splitLines_cat_nl, splitLines_cons_nl]
  rfl

theorem styleSlide_lines_no_brk {t : S} (h : isSub brkLine t = false) :
    ∀ l ∈ splitLines (styleSlide t), l ≠ brkLine := by
  intro l hl
  unfold styleSlide at hl
  split_ifs at hl
  · rw [splitLines_leadC] at hl
    rcases List.mem_cons.mp hl with rfl | hl'
    · decide
    · rcases List.mem_cons.mp hl' with rfl | hl''
      · decide
      · exact lines_ne_brk_of_no_brk h l hl''
  · rw [splitLines_codeC] at hl
    rcases List.mem_cons.mp hl with rfl | hl'
    · decide
    · rcases List.mem_cons.mp hl' with rfl | hl''
      · decide
      · exact lines_ne_brk_of_no_brk h l hl''
  · rw [splitLines_denseC] at hl
    rcases List.mem_cons.mp hl with rfl | hl'
    · decide
    · rcases List.mem_cons.mp hl' with rfl | hl''
      · decide
      · exact lines_ne_brk_of_no_brk h l hl''
  · exact lines_ne_brk_of_no_brk h l hl

theorem isSub_false_of_findOcc_none {pat : S} :
    ∀ {s : S}, findOcc pat s = none → isSub pat s = false := by
  intro s
  induction s with
  | nil =>
    intro h
    by_cases hp : isPre pat [] = true
    · exact absurd (by unfold findOcc; rw [if_pos hp] : findOcc pat [] = some ([], []))
        (by simp [h])
    · show isPre pat [] = false
      simpa using hp
  | cons c cs ih =>
    intro h
    by_cases hp : isPre pat (c :: cs) = true
    · exact absurd (by unfold findOcc; rw [if_pos hp] :
        findOcc pat (c :: cs) = some ([], (c :: cs).drop pat.length)) (by simp [h])
    · have h2 : (findOcc pat cs).map (fun p => (c :: p.1, p.2)) = none := by
        have h3 : findOcc pat (c :: cs) =
            (findOcc pat cs).map (fun p => (c :: p.1, p.2)) := by
          unfold findOcc
          rw [if_neg hp]
          cases cs <;> rfl
        rw [← h3]
        exact h
      have h4 : findOcc pat cs = none := by
        cases hfo : findOcc pat cs with
        | none => rfl
        | some ba =>
          rw [hfo] at h2
          exact absurd h2 (by simp)
      show (isPre pat (c :: cs) || isSub pat cs) = false
      rw [ih h4, show isPre pat (c :: cs) = false by simpa using hp]
      rfl

theorem findOcc_some_decomp :
    ∀ {s b a : S}, brkLine ≠ [] → findOcc brkLine s = some (b, a) →
      s = b ++ brkLine ++ a ∧ isSub brkLine b = false := by
  intro s
  induction s with
  | nil =>
    intro b a _ h
    have hp : isPre brkLine ([] : S) = false := by decide
    rw [show findOcc brkLine [] = none by unfold findOcc; rw [if_neg (by simp [hp])]]
      at h
    exact absurd h (by simp)
  | cons c cs ih =>
    intro b a hne h
    by_cases hp : isPre brkLine (c :: cs) = true
    · rw [show findOcc brkLine (c :: cs) =
        some ([], (c :: cs).drop brkLine.length) by
          unfold findOcc; rw [if_pos hp]] at h
      obtain ⟨hb, ha⟩ : ([] : S) = b ∧ (c :: cs).drop brkLine.length = a := by
        have := h
        simp only [Option.some.injEq, Prod.mk.injEq] at this
        exact this
      subst hb
      subst ha
      refine ⟨by simpa using isPre_drop hp, by decide⟩
    · rw [show findOcc brkLine (c :: cs) =
        (findOcc brkLine cs).map (fun p => (c :: p.1, p.2)) by
          unfold findOcc; rw [if_neg hp]; cases cs <;> rfl] at h
      cases hfo : findOcc brkLine cs with
      | none =>
        rw [hfo] at h
        exact absurd h (by simp)
      | some ba =>
        obtain ⟨b', a'⟩ := ba
        rw [hfo] at h
        obtain ⟨hb, ha⟩ : c :: b' = b ∧ a' = a := by
          have := h
          simp only [Option.map_some', Option.some.injEq, Prod.mk.injEq] at this
          exact this
        subst hb
        subst ha
        obtain ⟨hdec, hsub⟩ := ih hne hfo
        constructor
        · rw [List.cons_append, List.cons_append, ← hdec]
        · show (isPre brkLine (c :: b') || isSub brkLine b') = false
          have hpre : isPre brkLine (c :: b') = false := by
            by_cases hq : isPre brkLine (c :: b') = true
            · exfalso
              have : isPre brkLine ((c :: b') ++ (brkLine ++ a')) = true :=
                isPre_cat_of_isPre _ hq
              rw [show (c :: b') ++ (brkLine ++ a') = c :: cs by
                rw [hdec]; simp] at this
              exact absurd this (by simp [hp])
            · simpa using hq
          rw [hpre, hsub]
          rfl

theorem splitGo_no_brk :
    ∀ (n : Nat) (s : S), s.length < n → ∀ p ∈ splitGo n s, isSub brkLine p = false := by
  intro n
  induction n with
  | zero => intro s h; exact absurd h (Nat.not_lt_zero _)
  | succ n ih =>
    intro s hlen p hp
    cases hfo : findOcc brkLine s with
    | none =>
      rw [show splitGo (n + 1) s = [s] by
        show (match findOcc brkLine s with
          | none => [s]
          | some (b, a) => b :: splitGo n a) = [s]
        rw [hfo]] at hp
      rw [List.mem_singleton] at hp
      subst hp
      exact isSub_false_of_findOcc_none hfo
    | some ba =>
      obtain ⟨b, a⟩ := ba
      rw [show splitGo (n + 1) s = b :: splitGo n a by
        show (match findOcc brkLine s with
          | none => [s]
          | some (b, a) => b :: splitGo n a) = b :: splitGo n a
        rw [hfo]] at hp
      obtain ⟨hdec, hsub⟩ := findOcc_some_decomp (by decide) hfo
      rcases List.mem_cons.mp hp with rfl | hp'
      · exact hsub
      · refine ih a ?_ p hp'
        have h5 : s.length = b.length + (3 + a.length) := by
          rw [hdec]
          simp only [List.length_append]
          have h6 : brkLine.length = 3 := by decide
          omega
        omega

theorem styledParts_no_brk :
    ∀ (slides : List S) (i : Nat), (∀ sl ∈ slides, isSub brkLine sl = false) →
      ∀ p ∈ styledParts i slides, ∀ l ∈ splitLines p, l ≠ brkLine := by
  intro slides
  induction slides with
  | nil =>
    intro i _ p hp
    simp [styledParts] at hp
  | cons sl rest ih =>
    intro i h p hp
    have hsl : isSub brkLine (pyStrip sl) = false := pyStrip_no_brk (h sl (by simp))
    have hrest : ∀ sl' ∈ rest, isSub brkLine sl' = false :=
      fun sl' hm => h sl' (by simp [hm])
    simp only [styledParts] at hp
    split_ifs at hp
    · exact ih (i + 1) hrest p hp
    · rcases List.mem_cons.mp hp with rfl | hp'
      · exact lines_ne_brk_of_no_brk hsl
      · exact ih (i + 1) hrest p hp'
    · rcases List.mem_cons.mp hp with rfl | hp'
      · exact styleSlide_lines_no_brk hsl
      · exact ih (i + 1) hrest p hp'

theorem chainNoBB_cons_eq (a : S) (L : List S) :
    chainNoBB (a :: L) =
      ((match L with
        | [] => true
        | b :: _ => !(a = brkLine && b = brkLine)) && chainNoBB L) := by
  cases L <;> simp [chainNoBB]

theorem chainNoBB_of_no_brk :
    ∀ {L : List S}, (∀ l ∈ L, l ≠ brkLine) → chainNoBB L = true := by
  intro L
  induction L with
  | nil => intro _; rfl
  | cons a t ih =>
    intro h
    rw [chainNoBB_cons_eq, ih (fun l hl => h l (by simp [hl]))]
    have ha : a ≠ brkLine := h a (by simp)
    cases t with
    | nil => rfl
    | cons b t' => simp [ha]

theorem chainNoBB_cat_clean (A : List S) :
    ∀ B : List S, (∀ l ∈ A, l ≠ brkLine) → chainNoBB B = true →
      chainNoBB (A ++ B) = true := by
  induction A with
  | nil =>
    intro B _ hB
    simpa using hB
  | cons a A' ih =>
    intro B h hB
    rw [List.cons_append, chainNoBB_cons_eq,
      ih B (fun l hl => h l (by simp [hl])) hB]
    have ha : a ≠ brkLine := h a (by simp)
    cases hAB : A' ++ B with
    | nil => rfl
    | cons x t => simp [ha]

theorem chainNoBB_sep_block (L : List S) (hL : chainNoBB L = true) :
    chainNoBB ([] :: brkLine :: [] :: L) = true := by
  cases L with
  | nil => decide
  | cons x t => exact hL

theorem splitLines_sep (x y : S) :
    splitLines (x ++ (sepBreak ++ y)) =
      splitLines x ++ ([] :: brkLine :: [] :: splitLines y) := by
  rw [show sepBreak ++ y = '\n' :: (chars "\n---\n\n" ++ y) from rfl,
    splitLines_cat_nl,
    show chars "\n---\n\n" ++ y = '\n' :: (chars "---" ++ '\n' :: ('\n' :: y)) from rfl,
    splitLines_cons_nl, splitLines_cat_nl, splitLines_cons_nl]
  rfl

theorem chainNoBB_joinSep :
    ∀ parts : List S, (∀ p ∈ parts, ∀ l ∈ splitLines p, l ≠ brkLine) →
      chainNoBB (splitLines (joinSep parts)) = true := by
  intro parts
  induction parts with
  | nil => intro _; rfl
  | cons p rest ih =>
    intro h
    cases rest with
    | nil => exact chainNoBB_of_no_brk (fun l hl => h p (by simp) l hl)
    | cons q rest' =>
      have hjs : joinSep (p :: q :: rest') = p ++ (sepBreak ++ joinSep (q :: rest')) := by
        show p ++ sepBreak ++ joinSep (q :: rest') = _
        rw [List.append_assoc]
      rw [hjs, splitLines_sep]
      refine chainNoBB_cat_clean (splitLines p) _ (fun l hl => h p (by simp) l hl) ?_
      exact chainNoBB_sep_block _ (ih (fun p' hp' l hl => h p' (by simp [hp']) l hl))

theorem chainNoBB_applyStyling (s : S) :
    chainNoBB (splitLines (applyStyling s)) = true := by
  unfold applyStyling
  apply chainNoBB_joinSep
  intro p hp
  exact styledParts_no_brk (splitOnBreaks s) 0
    (fun sl hsl => splitGo_no_brk (s.length + 1) s (Nat.lt_succ_self _) sl hsl) p hp

/-- C3: for every configuration and input document, the line list of the
final pipeline output never has two adjacent lines that are both the
canonical break marker `---`: the styler rebuilds the document by joining
non-empty stripped slide pieces (none of which contains `---` at all) with
single separators. -/
theorem claim3_no_adjacent_breaks (cfg : MarpConfig) (te : Bool) (content : S) :
    chainNoBB (splitLines (processClaudeContent cfg te content)) = true := by
  unfold processClaudeContent
  exact chainNoBB_applyStyling _
